import Mathlib

/-!
# FileRecorder — verification of the folder-index / change-watching core

A shallow embedding in Lean 4 of the change-watching subsystem of the
FileRecorder application (directory reconciliation, local event debouncing,
network polling with backoff, monitored-folder registry, and the
path-deduplicated folder index in the SQLite layer), together with proofs
and refutations of the stated behavioural properties.

Conventions of the embedding:

* Python strings become `String`; all path algebra is done on the
  underlying `List Char` so that every definition evaluates by `decide`.
* SQLite `COLLATE NOCASE` / `LOWER` comparisons are modelled by an
  ASCII lower-casing function (SQLite itself only folds ASCII).
* SQLite `LIKE 'prefix%'` patterns (whose prefix part is free of the
  wildcard metacharacters `%` and the underscore) are modelled as a
  case-insensitive starts-with test.
* `st_mtime` values are modelled as integers: only equality and order
  comparisons on them matter to the code under study.
* Tables become lists of row structures; `cursor.fetchone()` on an
  unordered `SELECT` becomes `List.find?`, i.e. first match in row order.
* Qt timers / `time.time()` become explicit state passed to each tick.
-/

namespace FileRecorder

/-! ## Character-list path utilities

Python's `str.replace('/', '\\')`, `str.rstrip('\\')`, `str.lower()`,
`str.split('\\')`, `'\\'.join(...)`, `str.startswith(...)` and the
`in`-substring test, realised structurally over `List Char`. -/

/-- ASCII lower-casing of a character (what SQLite `NOCASE`/`LOWER` do). -/
def lowerChar (c : Char) : Char :=
  if 'A' ≤ c ∧ c ≤ 'Z' then Char.ofNat (c.toNat + 32) else c

/-- ASCII lower-casing of a character list. -/
def lowerCL (cs : List Char) : List Char := cs.map lowerChar

/-- ASCII lower-casing of a string. -/
def lowerStr (s : String) : String := ⟨lowerCL s.data⟩

/-- `str.replace('/', '\\')` — forward slashes become backslashes. -/
def replSlashCL (cs : List Char) : List Char :=
  cs.map (fun c => if c = '/' then '\\' else c)

/-- `str.rstrip('\\')` — drop every trailing backslash. -/
def rstripSepCL (cs : List Char) : List Char :=
  (cs.reverse.dropWhile (fun c => c = '\\')).reverse

/-- `a.startswith(b)` on character lists. -/
def startsWithCL : List Char → List Char → Bool
  | _, [] => true
  | [], _ :: _ => false
  | c :: cs, d :: ds => c = d && startsWithCL cs ds

/-- Substring containment, Python's `needle in hay`. -/
def containsSubCL (hay needle : List Char) : Bool :=
  if startsWithCL hay needle then true
  else
    match hay with
    | [] => false
    | _ :: rest => containsSubCL rest needle

/-- `str.split('\\')`: split at every backslash; never returns `[]`. -/
def splitSep : List Char → List (List Char)
  | [] => [[]]
  | c :: cs =>
    if c = '\\' then [] :: splitSep cs
    else
      match splitSep cs with
      | [] => [[c]]
      | comp :: rest => (c :: comp) :: rest

/-- `'\\'.join(...)`: interleave components with backslashes. -/
def joinSep : List (List Char) → List Char
  | [] => []
  | [c] => c
  | c :: cs => c ++ '\\' :: joinSep cs

theorem splitSep_ne_nil (cs : List Char) : splitSep cs ≠ [] := by
  induction cs with
  | nil => simp [splitSep]
  | cons c cs ih =>
    simp only [splitSep]
    split
    · simp
    · cases h : splitSep cs <;> simp

theorem joinSep_splitSep (cs : List Char) : joinSep (splitSep cs) = cs := by
  induction cs with
  | nil => rfl
  | cons c cs ih =>
    simp only [splitSep]
    split
    · rename_i hc
      subst hc
      cases h : splitSep cs with
      | nil => exact absurd h (splitSep_ne_nil cs)
      | cons comp rest =>
        rw [h] at ih
        simp [joinSep, ih]

    · cases h : splitSep cs with
      | nil => exact absurd h (splitSep_ne_nil cs)
      | cons comp rest =>
        rw [h] at ih
        cases rest with
        | nil => simp_all [joinSep]
        | cons r rs => simp_all [joinSep]

/-! ## Local Change Detector (`watcher/local_watcher.py`)

`DebouncedEventHandler`: raw watchdog events are filtered against ignore
patterns, keyed by source path into a pending dict (last event per path
wins), and flushed as one batch when the debounce timer fires. -/

/-- The emitted event record (`FileEvent` dataclass). -/
structure FileEvent where
  eventType : String
  srcPath : String
  destPath : String := ""
  isDirectory : Bool := false
  deriving DecidableEq, Repr

/-- A raw watchdog callback: which handler fires, plus the event payload. -/
inductive RawKind | created | deleted | modified | moved
  deriving DecidableEq, Repr

structure RawEvent where
  kind : RawKind
  srcPath : String
  destPath : String := ""
  isDirectory : Bool := false
  deriving DecidableEq, Repr

/-- The handler's `_ignore_patterns` set. -/
def ignorePatterns : List String :=
  [".tmp", ".partial", ".crdownload", ".part",
   "~$", ".swp", ".lock", "desktop.ini", "Thumbs.db"]

/-- `Path(path).name` — the final path component (both separators count,
as in `pathlib` on Windows). -/
def pathName (s : String) : String :=
  ⟨(splitSep (replSlashCL s.data)).getLast (splitSep_ne_nil _)⟩

/-- `_should_ignore`: any ignore pattern occurs in the lower-cased
final filename component. -/
def shouldIgnore (path : String) : Bool :=
  ignorePatterns.any fun pat => containsSubCL (lowerCL (pathName path).data) pat.data

/-- The pending-events dict, in Python insertion order. -/
abbrev Pending := List (String × FileEvent)

/-- Key containment test of a string-keyed Python dict (`k in d`). -/
def hasKey {α : Type} (m : List (String × α)) (k : String) : Bool :=
  m.any (fun kv => kv.1 == k)

/-- Python dict assignment `d[k] = v`: update in place keeps the slot,
a new key is appended at the end. -/
def dictInsert {α : Type} (m : List (String × α)) (k : String) (v : α) :
    List (String × α) :=
  if hasKey m k then
    m.map (fun kv => if kv.1 = k then (k, v) else kv)
  else m ++ [(k, v)]

/-- Python dict lookup `d.get(k)`. -/
def alookup {α : Type} (m : List (String × α)) (k : String) : Option α :=
  (m.find? (fun kv => kv.1 == k)).map Prod.snd

/-- Python `del d[k]`. -/
def aremove {α : Type} (m : List (String × α)) (k : String) : List (String × α) :=
  m.filter (fun kv => kv.1 != k)

/-- The `FileEvent` each watchdog callback constructs for a raw event. -/
def mkFileEvent (e : RawEvent) : FileEvent :=
  match e.kind with
  | .created => { eventType := "created", srcPath := e.srcPath, isDirectory := e.isDirectory }
  | .deleted => { eventType := "deleted", srcPath := e.srcPath, isDirectory := e.isDirectory }
  | .modified => { eventType := "modified", srcPath := e.srcPath, isDirectory := false }
  | .moved => { eventType := "moved", srcPath := e.srcPath, destPath := e.destPath,
                isDirectory := e.isDirectory }

/-- Does the dispatch layer let this raw event through to `_add_event`?
Directory-modified events are dropped, as is anything matching the
ignore patterns. -/
def qualifies (e : RawEvent) : Bool :=
  match e.kind with
  | .modified => !e.isDirectory && !shouldIgnore e.srcPath
  | _ => !shouldIgnore e.srcPath

/-- One raw watchdog callback acting on the pending dict
(`on_created` / `on_deleted` / `on_modified` / `on_moved`). -/
def handleRaw (m : Pending) (e : RawEvent) : Pending :=
  if qualifies e then dictInsert m e.srcPath (mkFileEvent e) else m

/-- `_flush_events`: emit the dict values as one batch and clear the dict. -/
def flushEvents (m : Pending) : List FileEvent × Pending :=
  (m.map Prod.snd, [])

/-- Handler-state invariant: keys are distinct and each entry is stored
under its own event's source path (true of everything `_add_event` builds). -/
def goodPending (m : Pending) : Prop :=
  (m.map Prod.fst).Nodup ∧ ∀ kv ∈ m, kv.1 = kv.2.srcPath

theorem hasKey_eq_false_iff {α : Type} (m : List (String × α)) (k : String) :
    hasKey m k = false ↔ ∀ kv ∈ m, kv.1 ≠ k := by
  simp [hasKey]

theorem filter_key_of_not_hasKey {α : Type} (m : List (String × α)) (k : String)
    (h : hasKey m k = false) :
    m.filter (fun kv => kv.1 = k) = [] := by
  rw [List.filter_eq_nil_iff]
  intro kv hkv
  simpa using (hasKey_eq_false_iff m k).1 h kv hkv

theorem filter_key_map_update {α : Type} (m : List (String × α)) (k : String) (v : α)
    (h : (m.map Prod.fst).Nodup) :
    (m.map (fun kv => if kv.1 = k then (k, v) else kv)).filter (fun kv => kv.1 = k)
      = if hasKey m k then [(k, v)] else [] := by
  induction m with
  | nil => simp [hasKey]
  | cons a m ih =>
    simp only [List.map_cons, List.nodup_cons] at h
    by_cases ha : a.1 = k
    · have hnk : hasKey m k = false := by
        rw [hasKey_eq_false_iff]
        intro kv hkv hk
        exact h.1 (by simpa [hk, ha] using List.mem_map_of_mem Prod.fst hkv)
      have hrest := ih h.2
      rw [hnk] at hrest
      have hhk : hasKey (a :: m) k = true := by simp [hasKey, ha]
      rw [hhk, if_pos rfl]
      simp only [List.map_cons, if_pos ha, List.filter_cons, if_pos rfl]
      simp only [decide_eq_true_eq]  at *
      simp [hrest]
    · have hkeq : hasKey (a :: m) k = hasKey m k := by
        simp [hasKey, ha]
      rw [hkeq]
      have hrest := ih h.2
      simp only [List.map_cons, if_neg ha, List.filter_cons]
      rw [hrest]
      simp [ha]

theorem dictInsert_filter_key {α : Type} (m : List (String × α)) (k : String) (v : α)
    (h : (m.map Prod.fst).Nodup) :
    (dictInsert m k v).filter (fun kv => kv.1 = k) = [(k, v)] := by
  unfold dictInsert
  by_cases hm : hasKey m k
  · rw [if_pos hm, filter_key_map_update m k v h, if_pos hm]
  · rw [if_neg hm, List.filter_append,
      filter_key_of_not_hasKey m k (by simpa using hm)]
    simp

theorem mkFileEvent_srcPath (e : RawEvent) : (mkFileEvent e).srcPath = e.srcPath := by
  cases e with
  | mk kind srcPath destPath isDirectory => cases kind <;> rfl

theorem dictInsert_goodPending (m : Pending) (k : String) (v : FileEvent)
    (h : goodPending m) (hv : v.srcPath = k) : goodPending (dictInsert m k v) := by
  unfold dictInsert
  by_cases hm : hasKey m k
  · rw [if_pos hm]
    refine ⟨?_, ?_⟩
    · have hkeys : (m.map (fun kv => if kv.1 = k then (k, v) else kv)).map Prod.fst
          = m.map Prod.fst := by
        rw [List.map_map]
        refine List.map_congr_left fun kv _ => ?_
        by_cases hkv : kv.1 = k <;> simp [hkv]
      rw [hkeys]; exact h.1
    · intro kv hkv
      obtain ⟨b, hb, hba⟩ := List.mem_map.1 hkv
      by_cases hbk : b.1 = k
      · rw [if_pos hbk] at hba
        subst hba
        simp [hv]
      · rw [if_neg hbk] at hba
        subst hba
        exact h.2 b hb
  · rw [if_neg hm]
    refine ⟨?_, ?_⟩
    · rw [List.map_append]
      refine List.Nodup.append h.1 (by simp) ?_
      intro a ha hb
      simp only [List.map_cons, List.map_nil, List.mem_singleton] at hb
      have hnk := (hasKey_eq_false_iff m k).1 (by simpa using hm)
      obtain ⟨b, hbm, hba⟩ := List.mem_map.1 ha
      exact hnk b hbm (hba.trans hb)
    · intro kv hkv
      rcases List.mem_append.1 hkv with hkv | hkv
      · exact h.2 kv hkv
      · simp only [List.mem_singleton] at hkv
        subst hkv
        simp [hv]

theorem handleRaw_goodPending (m : Pending) (e : RawEvent)
    (h : goodPending m) : goodPending (handleRaw m e) := by
  unfold handleRaw
  split
  · exact dictInsert_goodPending m e.srcPath (mkFileEvent e) h (mkFileEvent_srcPath e)
  · exact h

theorem foldl_handleRaw_goodPending (evs : List RawEvent) :
    ∀ m : Pending, goodPending m → goodPending (evs.foldl handleRaw m) := by
  induction evs with
  | nil => intro m h; exact h
  | cons e evs ih =>
    intro m h
    exact ih (handleRaw m e) (handleRaw_goodPending m e h)

theorem filter_snd_of_aligned (m : Pending) (p : String)
    (halign : ∀ kv ∈ m, kv.1 = kv.2.srcPath) :
    (m.map Prod.snd).filter (fun e => e.srcPath = p)
      = (m.filter (fun kv => kv.1 = p)).map Prod.snd := by
  induction m with
  | nil => rfl
  | cons a m ih =>
    have ha := halign a (List.mem_cons_self a m)
    have ihv := ih fun kv hkv => halign kv (List.mem_cons_of_mem a hkv)
    by_cases hp : a.1 = p
    · have hp2 : a.2.srcPath = p := ha ▸ hp
      simp [List.filter_cons, hp, hp2, ihv]
    · have hp2 : ¬ a.2.srcPath = p := fun hc => hp (by rw [ha, hc])
      simp [List.filter_cons, hp, hp2, ihv]

/-- **C5** — Debounce collapsing (`DebouncedEventHandler`,
`watcher/local_watcher.py` lines 26–115).  For every nonempty sequence of
qualifying (non-ignored, non-directory-modified) raw filesystem events on
one path processed within a single debounce window, the flushed batch
contains exactly one event for that path — namely the `FileEvent` built
from the **last** event of the sequence (so its type is the last-seen
type) — and the pending map left behind by the flush is empty, so nothing
is re-reported in a later window. -/
theorem c5_debounce_collapses_to_last (m₀ : Pending) (evs : List RawEvent)
    (p : String) (hgood : goodPending m₀) (hne : evs ≠ [])
    (hall : ∀ e ∈ evs, e.srcPath = p ∧ qualifies e = true) :
    ((flushEvents (evs.foldl handleRaw m₀)).1.filter (fun e => e.srcPath = p)
        = [mkFileEvent (evs.getLast hne)])
    ∧ (flushEvents (evs.foldl handleRaw m₀)).2 = [] := by
  constructor
  · obtain ⟨L, lastE, hdecomp⟩ : ∃ L lastE, evs = L ++ [lastE] := by
      cases hrev : evs.reverse with
      | nil => exact absurd (by simpa using congrArg List.reverse hrev) hne
      | cons a t =>
        exact ⟨t.reverse, a, by
          have := congrArg List.reverse hrev
          simpa using this⟩
    subst hdecomp
    have hlast : (L ++ [lastE]).getLast hne = lastE := by
      simp [List.getLast_append]
    rw [hlast]
    have hlastE := hall lastE (by simp)
    have hmid : goodPending (L.foldl handleRaw m₀) :=
      foldl_handleRaw_goodPending L m₀ hgood
    rw [List.foldl_append]
    simp only [List.foldl_cons, List.foldl_nil]
    have hstep : handleRaw (L.foldl handleRaw m₀) lastE
        = dictInsert (L.foldl handleRaw m₀) p (mkFileEvent lastE) := by
      unfold handleRaw
      rw [if_pos hlastE.2, hlastE.1]
    rw [hstep]
    have hfin : goodPending (dictInsert (L.foldl handleRaw m₀) p (mkFileEvent lastE)) :=
      dictInsert_goodPending _ p _ hmid
        (by rw [mkFileEvent_srcPath, hlastE.1])
    unfold flushEvents
    rw [filter_snd_of_aligned _ p hfin.2,
      dictInsert_filter_key _ p _ hmid.1]
    rfl
  · rfl

/-- Witness for C5: two events (created then modified) on the same file
within one window flush to the single modified event. -/
theorem c5_debounce_collapses_to_last_witness :
    ((flushEvents ([RawEvent.mk .created "C:\\media\\f.mkv" "" false,
        RawEvent.mk .modified "C:\\media\\f.mkv" "" false].foldl handleRaw [])).1.filter
        (fun e => e.srcPath = "C:\\media\\f.mkv")
      = [mkFileEvent (([RawEvent.mk .created "C:\\media\\f.mkv" "" false,
        RawEvent.mk .modified "C:\\media\\f.mkv" "" false]).getLast (by decide))])
    ∧ (flushEvents ([RawEvent.mk .created "C:\\media\\f.mkv" "" false,
        RawEvent.mk .modified "C:\\media\\f.mkv" "" false].foldl handleRaw [])).2 = [] :=
  c5_debounce_collapses_to_last [] _ "C:\\media\\f.mkv"
    (by constructor <;> simp) (by decide) (by decide)

/-! ## Monitored-folder registry records (`watcher/config.py`) -/

/-- The `MonitoredFolder` dataclass. -/
structure MonitoredFolder where
  id : Nat := 0
  path : String := ""
  lastMtime : Option Int := none
  lastCheckTime : Option Int := none
  isLocal : Bool := true
  pollIntervalMinutes : Nat := 15
  enabled : Bool := true
  deriving DecidableEq, Repr

/-! ## Network Poller (`watcher/network_poller.py`)

One timer per polled path; each tick stats the directory.  The wall clock
(`time.time()`) and the stat outcome are passed in explicitly; Qt signal
emissions become a returned event list. -/

structure RetryInfo where
  failCount : Nat
  firstFailTime : Int
  deriving DecidableEq, Repr

structure PollerState where
  timers : List (String × Nat) := []
  lastMtime : List (String × Int) := []
  retryInfo : List (String × RetryInfo) := []
  deriving DecidableEq, Repr

inductive PollerEvent
  | changesDetected (path : String) (mtime : Int)
  | connectionError (path : String) (message : String)
  | connectionRestored (path : String)
  deriving DecidableEq, Repr

/-- Is a poller event a `changes_detected` emission? -/
def isChangeEvent : PollerEvent → Bool
  | .changesDetected _ _ => true
  | _ => false

/-- `add_poll`: no-op if already polled; records the initial mtime only
when `folder.last_mtime` is truthy (neither `None` nor `0`); starts the
timer at the configured interval in milliseconds. -/
def addPoll (s : PollerState) (folder : MonitoredFolder) : PollerState :=
  if hasKey s.timers folder.path then s
  else
    let s1 :=
      match folder.lastMtime with
      | some m =>
        if m ≠ 0 then { s with lastMtime := dictInsert s.lastMtime folder.path m } else s
      | none => s
    { s1 with timers := dictInsert s1.timers folder.path (folder.pollIntervalMinutes * 60 * 1000) }

/-- `_restore_normal_interval`: the source's TODO leaves this at the
hard-coded default of 15 minutes rather than the configured interval. -/
def restoreNormalInterval (s : PollerState) (path : String) : PollerState :=
  if hasKey s.timers path then
    { s with timers := dictInsert s.timers path (15 * 60 * 1000) }
  else s

/-- `_handle_error`: create/continue the retry record, pick the next
retry interval from the elapsed-time bucket, retarget the timer, and
emit a connection-error event. -/
def handleError (s : PollerState) (path message : String) (now : Int) :
    PollerState × List PollerEvent :=
  let retry0 :=
    match alookup s.retryInfo path with
    | some info => info
    | none => { failCount := 0, firstFailTime := now }
  let info : RetryInfo := { retry0 with failCount := retry0.failCount + 1 }
  let elapsed := now - info.firstFailTime
  let nextIntervalSecs : Nat := if elapsed < 120 then 5 else if elapsed < 600 then 30 else 300
  let s1 := { s with retryInfo := dictInsert s.retryInfo path info }
  let s2 :=
    if hasKey s1.timers path then
      { s1 with timers := dictInsert s1.timers path (nextIntervalSecs * 1000) }
    else s1
  (s2, [.connectionError path message])

/-- The elapsed-time bucketing of the retry interval on its own. -/
def retryIntervalSecs (elapsed : Int) : Nat :=
  if elapsed < 120 then 5 else if elapsed < 600 then 30 else 300

inductive PollOutcome
  | ok (mtime : Int)
  | failed (message : String)
  deriving DecidableEq, Repr

/-- `_poll`: one tick for one path.  On success, clear any retry state
(restoring the interval and emitting `connection_restored`), emit
`changes_detected` only when a truthy previous mtime differs from the
current one, and record the current mtime.  On failure, `_handle_error`. -/
def pollTick (s : PollerState) (path : String) (outcome : PollOutcome) (now : Int) :
    PollerState × List PollerEvent :=
  match outcome with
  | .ok current =>
    let wasRetrying := hasKey s.retryInfo path
    let s1 :=
      if wasRetrying then
        restoreNormalInterval { s with retryInfo := aremove s.retryInfo path } path
      else s
    let evs1 : List PollerEvent :=
      if wasRetrying then [.connectionRestored path] else []
    let evs2 : List PollerEvent :=
      match alookup s1.lastMtime path with
      | some lm => if lm ≠ 0 ∧ current ≠ lm then [.changesDetected path current] else []
      | none => []
    ({ s1 with lastMtime := dictInsert s1.lastMtime path current }, evs1 ++ evs2)
  | .failed message => handleError s path message now

theorem alookup_cons {α : Type} (a : String × α) (l : List (String × α)) (k : String) :
    alookup (a :: l) k = if a.1 = k then some a.2 else alookup l k := by
  by_cases h : a.1 = k
  · simp [alookup, List.find?, h]
  · have hb : (a.1 == k) = false := by simpa using h
    simp [alookup, List.find?, hb, h]

theorem hasKey_cons {α : Type} (a : String × α) (l : List (String × α)) (k : String) :
    hasKey (a :: l) k = (a.1 == k || hasKey l k) := by
  simp [hasKey]

theorem alookup_dictInsert_self {α : Type} (m : List (String × α)) (k : String) (v : α) :
    alookup (dictInsert m k v) k = some v := by
  unfold dictInsert
  by_cases hm : hasKey m k
  · rw [if_pos hm]
    induction m with
    | nil => simp [hasKey] at hm
    | cons a l ih =>
      rw [List.map_cons]
      by_cases ha : a.1 = k
      · rw [if_pos ha, alookup_cons]
        simp
      · rw [if_neg ha, alookup_cons, if_neg ha]
        refine ih ?_
        rw [hasKey_cons] at hm
        rcases (Bool.or_eq_true _ _).mp hm with h | h
        · exact absurd (by simpa using h) ha
        · exact h
  · rw [if_neg hm]
    induction m with
    | nil => simp [alookup, List.find?]
    | cons a l ih =>
      have ha : ¬ a.1 = k := by
        intro hc
        exact hm (by rw [hasKey_cons]; simp [hc])
      have hl : ¬ hasKey l k = true := by
        intro hc
        exact hm (by rw [hasKey_cons, hc]; simp)
      rw [List.cons_append, alookup_cons, if_neg ha]
      exact ih hl

theorem alookup_restoreNormalInterval (s : PollerState) (path p : String) :
    alookup (restoreNormalInterval s path).lastMtime p = alookup s.lastMtime p := by
  unfold restoreNormalInterval
  split <;> rfl

/-- **C10** — `NetworkPoller._poll` / `add_poll` (`watcher/network_poller.py`).
A path registered with no truthy prior mtime (`last_mtime` `None` or `0`)
has no recorded mtime after registration; a successful tick with no
recorded prior mtime stores the observed mtime and emits no
`changes_detected`; and any `changes_detected` emission happens only on a
successful tick whose recorded prior mtime exists, is non-zero, and
differs from the observed one. -/
theorem c10_first_poll_stores_but_never_emits
    (s : PollerState) (path : String) :
    (∀ folder : MonitoredFolder, folder.path = path →
      (folder.lastMtime = none ∨ folder.lastMtime = some 0) →
      alookup s.lastMtime path = none →
      alookup (addPoll s folder).lastMtime path = none)
    ∧ (∀ current now : Int, alookup s.lastMtime path = none →
        ((pollTick s path (.ok current) now).2.filter isChangeEvent = []
          ∧ alookup (pollTick s path (.ok current) now).1.lastMtime path = some current))
    ∧ (∀ (outcome : PollOutcome) (now : Int) (p : String) (mt : Int),
        PollerEvent.changesDetected p mt ∈ (pollTick s path outcome now).2 →
        p = path ∧ outcome = .ok mt ∧
          ∃ prior, alookup s.lastMtime path = some prior ∧ prior ≠ 0 ∧ mt ≠ prior) := by
  refine ⟨?_, ?_, ?_⟩
  · intro folder hfp hlm hnone
    unfold addPoll
    split
    · exact hnone
    · rcases hlm with hlm | hlm <;> simp [hlm, hfp, hnone]
  · intro current now hnone
    by_cases hr : hasKey s.retryInfo path = true
    · simp only [pollTick]
      rw [if_pos hr, if_pos hr]
      constructor
      · rw [alookup_restoreNormalInterval]
        simp [hnone, isChangeEvent]
      · simp [alookup_dictInsert_self]
    · simp only [pollTick]
      rw [if_neg hr, if_neg hr]
      constructor
      · simp [hnone, isChangeEvent]
      · simp [alookup_dictInsert_self]
  · intro outcome now p mt hmem
    cases outcome with
    | failed message => simp [pollTick, handleError] at hmem
    | ok current =>
      have hok : ∃ lm, alookup s.lastMtime path = some lm ∧ lm ≠ 0 ∧ current ≠ lm
          ∧ p = path ∧ mt = current := by
        by_cases hr : hasKey s.retryInfo path = true
        · simp only [pollTick] at hmem
          rw [if_pos hr, if_pos hr, alookup_restoreNormalInterval] at hmem
          have hml : alookup
              ({ s with retryInfo := aremove s.retryInfo path } : PollerState).lastMtime path
              = alookup s.lastMtime path := rfl
          rw [hml] at hmem
          rcases hlk : alookup s.lastMtime path with _ | lm
          · rw [hlk] at hmem
            simp at hmem
          · rw [hlk] at hmem
            dsimp only at hmem
            by_cases hc : lm ≠ 0 ∧ current ≠ lm
            · rw [if_pos hc] at hmem
              simp only [List.cons_append, List.nil_append, List.mem_cons,
                List.mem_singleton] at hmem
              rcases hmem with h | h
              · cases h
              · rcases h with h | h
                · cases h; exact ⟨lm, rfl, hc.1, hc.2, rfl, rfl⟩
                · cases h
            · rw [if_neg hc] at hmem
              simp at hmem
        · simp only [pollTick] at hmem
          rw [if_neg hr, if_neg hr] at hmem
          rcases hlk : alookup s.lastMtime path with _ | lm
          · rw [hlk] at hmem
            simp at hmem
          · rw [hlk] at hmem
            dsimp only at hmem
            by_cases hc : lm ≠ 0 ∧ current ≠ lm
            · rw [if_pos hc] at hmem
              simp only [List.nil_append, List.mem_singleton] at hmem
              cases hmem
              exact ⟨lm, rfl, hc.1, hc.2, rfl, rfl⟩
            · rw [if_neg hc] at hmem
              simp at hmem
      obtain ⟨lm, hlk, hne0, hnecur, hp, hmt⟩ := hok
      subst hp
      subst hmt
      exact ⟨rfl, rfl, lm, hlk, hne0, hnecur⟩

/-- Witness for C10 at a concrete state: a fresh path first polled at
mtime 42 stores it silently, and a second tick at mtime 43 emits. -/
theorem c10_first_poll_stores_but_never_emits_witness :
    alookup (addPoll {} { id := 1, path := "\\\\srv\\share", lastMtime := none }).lastMtime
        "\\\\srv\\share" = none
    ∧ ((pollTick {} "\\\\srv\\share" (.ok 42) 5).2.filter isChangeEvent = []
        ∧ alookup (pollTick {} "\\\\srv\\share" (.ok 42) 5).1.lastMtime "\\\\srv\\share"
            = some 42) := by
  refine ⟨?_, ?_⟩
  · exact (c10_first_poll_stores_but_never_emits {} "\\\\srv\\share").1
      { id := 1, path := "\\\\srv\\share", lastMtime := none } rfl (Or.inl rfl) (by decide)
  · exact (c10_first_poll_stores_but_never_emits {} "\\\\srv\\share").2.1 42 5 (by decide)

/-- The C4 scenario: a network folder registered with a configured
30-minute poll interval. -/
def srvMedia : MonitoredFolder :=
  { id := 1, path := "\\\\srv\\media", lastMtime := some 100, pollIntervalMinutes := 30 }

/-- Poller state right after registering `srvMedia`. -/
def c4AfterAdd : PollerState := addPoll {} srvMedia

/-- One failed tick on `srvMedia` at time 1000. -/
def c4AfterFail : PollerState × List PollerEvent :=
  pollTick c4AfterAdd srvMedia.path (.failed "timeout") 1000

/-- The recovery tick (stat succeeds again, same mtime) at time 1005. -/
def c4AfterRecover : PollerState × List PollerEvent :=
  pollTick c4AfterFail.1 srvMedia.path (.ok 100) 1005

/-- **C4** — `NetworkPoller._handle_error` / `_restore_normal_interval`
(`watcher/network_poller.py`).  The claim's backoff facts hold (the
bucketed retry interval is non-decreasing in elapsed time, every failed
tick emits a connection-error event, and the first success clears the
retry state and emits connection-restored), BUT the timer is restored to
the hard-coded 15-minute default, not to the path's configured normal
poll interval: with a 30-minute configured interval (1800000 ms), after
one failure and one recovery the timer holds 900000 ms. -/
theorem c4_restore_uses_default_not_configured :
    (alookup c4AfterAdd.timers srvMedia.path = some 1800000)
    ∧ (c4AfterFail.2 = [.connectionError srvMedia.path "timeout"])
    ∧ (alookup c4AfterFail.1.timers srvMedia.path = some 5000)
    ∧ (c4AfterRecover.2 = [.connectionRestored srvMedia.path])
    ∧ (c4AfterRecover.1.retryInfo = [])
    ∧ (alookup c4AfterRecover.1.timers srvMedia.path = some 900000)
    ∧ (900000 : Nat) ≠ srvMedia.pollIntervalMinutes * 60 * 1000
    ∧ ∀ e₁ e₂ : Int, e₁ ≤ e₂ → retryIntervalSecs e₁ ≤ retryIntervalSecs e₂ := by
  refine ⟨by decide, by decide, by decide, by decide, by decide, by decide, by decide, ?_⟩
  intro e₁ e₂ h
  unfold retryIntervalSecs
  by_cases h1 : e₁ < 120
  · by_cases h2 : e₂ < 120
    · simp [h1, h2]
    · by_cases h3 : e₂ < 600 <;> simp [h1, h2, h3]
  · have h2 : ¬ e₂ < 120 := by omega
    by_cases h3 : e₁ < 600
    · by_cases h4 : e₂ < 600 <;> simp [h1, h2, h3, h4]
    · have h4 : ¬ e₂ < 600 := by omega
      simp [h1, h2, h3, h4]

/-- Witness for C4 (the final conjunct carries the only hypotheses):
instantiate the monotonicity conjunct at elapsed times 100 ≤ 400. -/
theorem c4_restore_uses_default_not_configured_witness :
    (100 : Int) ≤ 400 ∧ retryIntervalSecs 100 ≤ retryIntervalSecs 400 :=
  ⟨by decide, c4_restore_uses_default_not_configured.2.2.2.2.2.2.2 100 400 (by decide)⟩

/-! ## Reconciler (`watcher/reconciler.py`)

`Reconciler.check_all_folders` walks the enabled monitored folders,
stats each, classifies inaccessible ones, flags unindexed ones, diffs
the ones whose directory mtime moved, and silently persists the mtime
for first-ever checks of already-indexed folders.  `os.stat` becomes an
explicit `stat` function; the database handle becomes an optional view
carrying the folder-in-index query and the file-diff pass. -/

/-- Outcome of `os.stat(path)` as the reconciler discriminates it. -/
inductive StatRes
  | ok (mtime : Int)
  | permDenied (message : String)
  | notFound
  | osFailure (message : String)
  deriving DecidableEq, Repr

/-- The `FileChange` dataclass. -/
structure FileChange where
  path : String
  filename : String
  changeType : String
  size : Int := 0
  deriving DecidableEq, Repr

/-- The `FolderChange` dataclass. -/
structure FolderChange where
  folder : MonitoredFolder
  oldMtime : Option Int
  newMtime : Int
  accessible : Bool := true
  errorMessage : String := ""
  isNewFolder : Bool := false
  fileChanges : List FileChange := []
  addedCount : Nat := 0
  deletedCount : Nat := 0
  modifiedCount : Nat := 0
  deriving DecidableEq, Repr

/-- The reconciler's view of `self.db`: the `_folder_in_index` query and
the `_detect_file_changes` pass (which only fills the diff fields). -/
structure DbView where
  inIndex : String → Bool
  detect : FolderChange → FolderChange

/-- `Reconciler._check_folder`: stat the path, classify failures with a
human-readable reason, and mark never-indexed folders. -/
def checkFolder (stat : String → StatRes) (db : Option DbView)
    (f : MonitoredFolder) : FolderChange :=
  match stat f.path with
  | .ok m =>
    { folder := f, oldMtime := f.lastMtime, newMtime := m, accessible := true,
      isNewFolder := match db with | some d => !d.inIndex f.path | none => false }
  | .permDenied e =>
    { folder := f, oldMtime := f.lastMtime, newMtime := 0, accessible := false,
      errorMessage := "权限不足: " ++ e }
  | .notFound =>
    { folder := f, oldMtime := f.lastMtime, newMtime := 0, accessible := false,
      errorMessage := "目录不存在" }
  | .osFailure e =>
    { folder := f, oldMtime := f.lastMtime, newMtime := 0, accessible := false,
      errorMessage := "网络错误或超时: " ++ e }

/-- One reconciliation pass's accumulated output: the changed and error
lists it returns plus the `update_folder_mtime` calls it makes. -/
structure ReconcileResult where
  changed : List FolderChange := []
  errors : List FolderChange := []
  mtimeUpdates : List (Nat × Int) := []
  deriving DecidableEq, Repr

/-- `if self.db: self._detect_file_changes(result)` — the diff pass runs
only when a database handle is present. -/
def detectIfDb (db : Option DbView) (r : FolderChange) : FolderChange :=
  match db with
  | some d => d.detect r
  | none => r

/-- The body of `check_all_folders`' loop for one folder. -/
def reconcileStep (stat : String → StatRes) (db : Option DbView)
    (acc : ReconcileResult) (f : MonitoredFolder) : ReconcileResult :=
  let r := checkFolder stat db f
  if r.accessible = false then { acc with errors := acc.errors ++ [r] }
  else if r.isNewFolder then { acc with changed := acc.changed ++ [r] }
  else
    match r.oldMtime with
    | none => { acc with mtimeUpdates := acc.mtimeUpdates ++ [(f.id, r.newMtime)] }
    | some o =>
      if r.newMtime ≠ o then { acc with changed := acc.changed ++ [detectIfDb db r] }
      else acc

/-- `WatcherConfig.get_enabled_folders()`. -/
def enabledFolders (reg : List MonitoredFolder) : List MonitoredFolder :=
  reg.filter (fun f => f.enabled)

/-- `Reconciler.check_all_folders`. -/
def checkAllFolders (stat : String → StatRes) (db : Option DbView)
    (reg : List MonitoredFolder) : ReconcileResult :=
  (enabledFolders reg).foldl (reconcileStep stat db) {}

/-- Does a stat outcome raise (enter one of the three handlers)? -/
def statFails : StatRes → Bool
  | .ok _ => false
  | _ => true

/-- The error record one expects for a folder whose stat failed. -/
def expectedErrorChange (stat : String → StatRes) (f : MonitoredFolder) :
    Option FolderChange :=
  match stat f.path with
  | .ok _ => none
  | .permDenied e => some
      { folder := f, oldMtime := f.lastMtime, newMtime := 0,
        accessible := false, errorMessage := "权限不足: " ++ e }
  | .notFound => some
      { folder := f, oldMtime := f.lastMtime, newMtime := 0,
        accessible := false, errorMessage := "目录不存在" }
  | .osFailure e => some
      { folder := f, oldMtime := f.lastMtime, newMtime := 0,
        accessible := false, errorMessage := "网络错误或超时: " ++ e }

theorem checkFolder_folder (stat : String → StatRes) (db : Option DbView)
    (f : MonitoredFolder) : (checkFolder stat db f).folder = f := by
  unfold checkFolder
  cases stat f.path <;> rfl

theorem checkFolder_accessible_iff (stat : String → StatRes) (db : Option DbView)
    (f : MonitoredFolder) :
    (checkFolder stat db f).accessible = !statFails (stat f.path) := by
  unfold checkFolder statFails
  cases stat f.path <;> rfl

theorem reconcileStep_errors_of_fail (stat : String → StatRes) (db : Option DbView)
    (acc : ReconcileResult) (g : MonitoredFolder)
    (hfail : statFails (stat g.path) = true) :
    (reconcileStep stat db acc g).errors = acc.errors ++ [checkFolder stat db g] := by
  have hacc : (checkFolder stat db g).accessible = false := by
    rw [checkFolder_accessible_iff, hfail]
    rfl
  simp only [reconcileStep]
  rw [if_pos hacc]

theorem reconcileStep_errors_of_ok (stat : String → StatRes) (db : Option DbView)
    (acc : ReconcileResult) (g : MonitoredFolder) (m : Int)
    (hst : stat g.path = .ok m) :
    (reconcileStep stat db acc g).errors = acc.errors := by
  have hr : checkFolder stat db g
      = { folder := g, oldMtime := g.lastMtime, newMtime := m, accessible := true,
          isNewFolder := match db with | some d => !d.inIndex g.path | none => false } := by
    unfold checkFolder
    rw [hst]
  simp only [reconcileStep]
  rw [hr]
  split
  · simp_all
  · split
    · simp
    · split
      · simp
      · split <;> simp

theorem foldl_reconcile_errors (stat : String → StatRes) (db : Option DbView)
    (fs : List MonitoredFolder) :
    ∀ acc : ReconcileResult,
      (fs.foldl (reconcileStep stat db) acc).errors
        = acc.errors ++ fs.filterMap (expectedErrorChange stat) := by
  induction fs with
  | nil => intro acc; simp
  | cons g fs ih =>
    intro acc
    rw [List.foldl_cons, ih, List.filterMap_cons]
    have hstep : (reconcileStep stat db acc g).errors
        = acc.errors ++ (expectedErrorChange stat g).toList := by
      cases hst : stat g.path with
      | ok m =>
        rw [reconcileStep_errors_of_ok stat db acc g m hst]
        simp [expectedErrorChange, hst]
      | permDenied e =>
        rw [reconcileStep_errors_of_fail stat db acc g (by rw [hst]; rfl)]
        simp [expectedErrorChange, checkFolder, hst]
      | notFound =>
        rw [reconcileStep_errors_of_fail stat db acc g (by rw [hst]; rfl)]
        simp [expectedErrorChange, checkFolder, hst]
      | osFailure e =>
        rw [reconcileStep_errors_of_fail stat db acc g (by rw [hst]; rfl)]
        simp [expectedErrorChange, checkFolder, hst]
    rw [hstep]
    cases hst : expectedErrorChange stat g <;> simp [List.append_assoc]

/-- **C6** — `Reconciler._check_folder` / `check_all_folders`
(`watcher/reconciler.py`).  One reconciliation pass returns, as its error
list, exactly one inaccessible record per enabled folder whose stat
failed, in registry order, each marked `accessible = false` with the
classified message (permission denied vs not-found vs other OS/network
failure) — and every other enabled folder is still processed: no stat
failure aborts the pass. -/
theorem c6_stat_failure_is_data_not_fatal (stat : String → StatRes)
    (db : Option DbView) (reg : List MonitoredFolder) :
    (checkAllFolders stat db reg).errors
      = (enabledFolders reg).filterMap (expectedErrorChange stat)
    ∧ ∀ f : MonitoredFolder, ∀ e ∈ expectedErrorChange stat f,
        e.accessible = false ∧ e.folder = f ∧ statFails (stat f.path) = true := by
  constructor
  · unfold checkAllFolders
    rw [foldl_reconcile_errors]
    rfl
  · intro f e he
    unfold expectedErrorChange at he
    cases hst : stat f.path with
    | ok m =>
      rw [hst] at he
      cases he
    | permDenied msg =>
      rw [hst] at he
      simp only [Option.mem_def, Option.some.injEq] at he
      subst he
      exact ⟨rfl, rfl, rfl⟩
    | notFound =>
      rw [hst] at he
      simp only [Option.mem_def, Option.some.injEq] at he
      subst he
      exact ⟨rfl, rfl, rfl⟩
    | osFailure msg =>
      rw [hst] at he
      simp only [Option.mem_def, Option.some.injEq] at he
      subst he
      exact ⟨rfl, rfl, rfl⟩

/-- Witness for C6: a two-folder registry where the first stat raises
`PermissionError` and the second succeeds — the error list carries
exactly the classified first folder. -/
theorem c6_stat_failure_is_data_not_fatal_witness :
    ((checkAllFolders
        (fun p => if p = "C:\\locked" then .permDenied "denied" else .ok 7) none
        [{ id := 1, path := "C:\\locked" }, { id := 2, path := "C:\\open" }]).errors
      = [{ folder := { id := 1, path := "C:\\locked" }, oldMtime := none, newMtime := 0,
           accessible := false, errorMessage := "权限不足: denied" }])
    ∧ ({ folder := { id := 1, path := "C:\\locked" }, oldMtime := none, newMtime := 0,
           accessible := false, errorMessage := "权限不足: denied" } : FolderChange).accessible
        = false := by
  constructor
  · rw [(c6_stat_failure_is_data_not_fatal
      (fun p => if p = "C:\\locked" then .permDenied "denied" else .ok 7) none
      [{ id := 1, path := "C:\\locked" }, { id := 2, path := "C:\\open" }]).1]
    decide
  · exact ((c6_stat_failure_is_data_not_fatal
      (fun p => if p = "C:\\locked" then .permDenied "denied" else .ok 7) none
      [{ id := 1, path := "C:\\locked" }, { id := 2, path := "C:\\open" }]).2
      { id := 1, path := "C:\\locked" } _ (by decide)).1

/-- The per-folder frame property used for C7, stated over an arbitrary
accumulator. -/
def untouchedBy (f : MonitoredFolder) (acc : ReconcileResult) : Prop :=
  (∀ fc ∈ acc.changed, fc.folder.id ≠ f.id)
  ∧ (∀ fc ∈ acc.errors, fc.folder.id ≠ f.id)
  ∧ (∀ u ∈ acc.mtimeUpdates, u.1 ≠ f.id)

theorem reconcileStep_untouched_of_ne (stat : String → StatRes) (db : Option DbView)
    (f g : MonitoredFolder) (hdet : ∀ dv, db = some dv → ∀ fc, (dv.detect fc).folder = fc.folder)
    (hne : g.id ≠ f.id) (acc : ReconcileResult) (hacc : untouchedBy f acc) :
    untouchedBy f (reconcileStep stat db acc g) := by
  obtain ⟨h1, h2, h3⟩ := hacc
  simp only [reconcileStep]
  have hfold : (checkFolder stat db g).folder = g := checkFolder_folder stat db g
  split
  · refine ⟨h1, ?_, h3⟩
    intro fc hfc
    rcases List.mem_append.1 hfc with h | h
    · exact h2 fc h
    · simp only [List.mem_singleton] at h
      subst h
      rw [hfold]
      exact hne
  · split
    · refine ⟨?_, h2, h3⟩
      intro fc hfc
      rcases List.mem_append.1 hfc with h | h
      · exact h1 fc h
      · simp only [List.mem_singleton] at h
        subst h
        rw [hfold]
        exact hne
    · split
      · refine ⟨h1, h2, ?_⟩
        intro u hu
        rcases List.mem_append.1 hu with h | h
        · exact h3 u h
        · simp only [List.mem_singleton] at h
          subst h
          exact hne
      · split
        · refine ⟨?_, h2, h3⟩
          intro fc hfc
          rcases List.mem_append.1 hfc with h | h
          · exact h1 fc h
          · simp only [List.mem_singleton] at h
            subst h
            have hr2 : (detectIfDb db (checkFolder stat db g)).folder = g := by
              cases db with
              | none => exact checkFolder_folder stat none g
              | some dv =>
                unfold detectIfDb
                rw [hdet dv rfl]
                exact checkFolder_folder stat (some dv) g
            rw [hr2]
            exact hne
        · exact ⟨h1, h2, h3⟩

theorem reconcileStep_skips_unchanged (stat : String → StatRes) (dv : DbView)
    (f : MonitoredFolder) (m : Int) (hstat : stat f.path = .ok m)
    (hin : dv.inIndex f.path = true) (hlast : f.lastMtime = some m)
    (acc : ReconcileResult) :
    reconcileStep stat (some dv) acc f = acc := by
  unfold reconcileStep checkFolder
  rw [hstat]
  simp [hin, hlast]

/-- **C7** — frame property of one reconciliation pass
(`watcher/reconciler.py` `check_all_folders`, `watcher/config.py`
`update_folder_mtime`).  An enabled folder that is accessible, already
present in the index, and whose current directory mtime equals the
stored `last_mtime` appears in neither the changed list nor the error
list, and no `update_folder_mtime` call is made for its id — its
registry row stays untouched.  (Registry ids are assumed distinct, and
the file-diff pass is assumed not to reassign the `folder` field, as
`_detect_file_changes` only fills counts and samples.) -/
theorem c7_unchanged_folder_left_alone (stat : String → StatRes) (dv : DbView)
    (reg : List MonitoredFolder) (f : MonitoredFolder) (m : Int)
    (hids : ((enabledFolders reg).map (fun g => g.id)).Nodup)
    (hdet : ∀ fc, (dv.detect fc).folder = fc.folder)
    (hf : f ∈ enabledFolders reg)
    (hstat : stat f.path = .ok m)
    (hin : dv.inIndex f.path = true)
    (hlast : f.lastMtime = some m) :
    untouchedBy f (checkAllFolders stat (some dv) reg) := by
  have hinj : ∀ g ∈ enabledFolders reg, g.id = f.id → g = f := fun g hg hgf =>
    List.inj_on_of_nodup_map hids hg hf hgf
  have main : ∀ (fs : List MonitoredFolder), (∀ g ∈ fs, g.id = f.id → g = f) →
      ∀ acc : ReconcileResult, untouchedBy f acc →
      untouchedBy f (fs.foldl (reconcileStep stat (some dv)) acc) := by
    intro fs
    induction fs with
    | nil => intro _ acc hacc; exact hacc
    | cons g fs ih =>
      intro hg acc hacc
      rw [List.foldl_cons]
      refine ih (fun x hx => hg x (List.mem_cons_of_mem g hx)) _ ?_
      by_cases hgf : g.id = f.id
      · have : g = f := hg g (List.mem_cons_self g fs) hgf
        subst this
        rw [reconcileStep_skips_unchanged stat dv g m hstat hin hlast]
        exact hacc
      · exact reconcileStep_untouched_of_ne stat (some dv) f g
          (fun dv2 h2 => by cases h2; exact hdet) hgf acc hacc
  exact main (enabledFolders reg) hinj {} ⟨by simp, by simp, by simp⟩

/-- Witness for C7: a one-folder registry whose folder is indexed with an
unchanged mtime of 1000 — the pass returns empty lists and no update. -/
theorem c7_unchanged_folder_left_alone_witness :
    untouchedBy { id := 1, path := "C:\\Media", lastMtime := some 1000 }
      (checkAllFolders (fun _ => .ok 1000)
        (some { inIndex := fun _ => true, detect := id })
        [{ id := 1, path := "C:\\Media", lastMtime := some 1000 }]) :=
  c7_unchanged_folder_left_alone (fun _ => .ok 1000)
    { inIndex := fun _ => true, detect := id }
    [{ id := 1, path := "C:\\Media", lastMtime := some 1000 }]
    { id := 1, path := "C:\\Media", lastMtime := some 1000 } 1000
    (by decide) (fun fc => rfl) (by decide) rfl rfl rfl

/-! ## Folder Index Store (`database/db_manager.py`)

The `folders` and `files` tables as lists of rows, and the path-prefix
queries of `Reconciler._folder_in_index`, `_detect_file_changes`,
`DatabaseManager.clear_source`, `_get_or_create_folder_id` and
`get_direct_subdirs` over them. -/

/-- One row of the `folders` table (the columns the studied queries touch). -/
structure FolderRow where
  id : Nat
  path : String
  parentId : Option Nat := none
  scanSourceId : Option Nat := none
  deriving DecidableEq, Repr

/-- One row of the `files` table (the columns the studied queries touch). -/
structure FileRow where
  filename : String
  folderId : Nat
  sizeBytes : Int := 0
  mtime : Int := 0
  isDir : Bool := false
  deriving DecidableEq, Repr

/-- `_frc_standardize_path` and the reconciler's inline normalisation:
`path.replace('/', '\\').rstrip('\\')`. -/
def standardizePath (s : String) : String :=
  ⟨rstripSepCL (replSlashCL s.data)⟩

/-- SQLite `a COLLATE NOCASE = b` (ASCII case folding). -/
def nocaseEq (a b : String) : Bool :=
  lowerCL a.data == lowerCL b.data

/-- SQLite `s LIKE pat || '%'` for a metacharacter-free `pat` whose
backslashes are escaped under `ESCAPE`: a case-insensitive prefix test. -/
def likeStarts (pat s : String) : Bool :=
  startsWithCL (lowerCL s.data) (lowerCL pat.data)

/-- `Reconciler._folder_in_index`: any `folders` row equal to the
normalised path (NOCASE) or LIKE-prefixed by it — note the pattern is the
bare path plus `%`, with no separator required after the prefix. -/
def folderInIndex (rows : List FolderRow) (path : String) : Bool :=
  let normalized := standardizePath path
  rows.any fun row => nocaseEq row.path normalized || likeStarts normalized row.path

/-- The folder-row filter of the `files`/`folders` join inside
`Reconciler._detect_file_changes`: `fo.path LIKE normalized || '%'` —
again a bare prefix with no separator requirement. -/
def detectIndexedUnderSelects (folderPath : String) (row : FolderRow) : Bool :=
  likeStarts (standardizePath folderPath) row.path

/-- The folder-row selection of `DatabaseManager.clear_source`:
`LOWER(path) = src` or `LOWER(path) LIKE src || '\%'` — here the pattern
does append a backslash before `%`, so a separator is required. -/
def clearSourceSelects (scanSource : String) (row : FolderRow) : Bool :=
  let s := lowerStr (standardizePath scanSource)
  lowerStr row.path == s || startsWithCL (lowerCL row.path.data) (s.data ++ ['\\'])

/-- `DatabaseManager.clear_source`: delete the files owned by selected
folders (counting them), then the folder rows; returns the new tables and
the reported deleted count. -/
def clearSource (folders : List FolderRow) (files : List FileRow) (scanSource : String) :
    List FolderRow × List FileRow × Nat :=
  let selIds := (folders.filter (clearSourceSelects scanSource)).map (fun r => r.id)
  let files2 := files.filter (fun f => !(selIds.contains f.folderId))
  let deletedCount := files.length - files2.length
  let folders2 := folders.filter (fun r => !(clearSourceSelects scanSource r))
  (folders2, files2, deletedCount)

/-- The single-row index used for the C2 refutation: only `C:\database`
is indexed. -/
def dbOnlyDatabase : List FolderRow := [{ id := 1, path := "C:\\database" }]

/-- A file that lives under `C:\database`. -/
def filesOnlyDatabase : List FileRow := [{ filename := "a.mkv", folderId := 1 }]

/-- **C2** — separator-strictness of the prefix queries
(`watcher/reconciler.py` lines 144–155 and 183–200,
`database/db_manager.py` `clear_source`).  The claim fails for the two
reconciler queries: with only `C:\database` indexed, the folder-in-index
check for `C:\data` answers true and the indexed-files-under filter
selects the `C:\database` row, because both use a bare `LIKE prefix%`
with no separator requirement.  `clear_source`, whose pattern appends a
backslash before `%`, correctly refuses to treat `C:\database` as being
under `C:\data`. -/
theorem c2_reconciler_prefix_not_separator_strict :
    folderInIndex dbOnlyDatabase "C:\\data" = true
    ∧ detectIndexedUnderSelects "C:\\data" { id := 1, path := "C:\\database" } = true
    ∧ clearSourceSelects "C:\\data" { id := 1, path := "C:\\database" } = false
    ∧ clearSource dbOnlyDatabase filesOnlyDatabase "C:\\data"
        = (dbOnlyDatabase, filesOnlyDatabase, 0) := by
  refine ⟨by decide, by decide, by decide, by decide⟩

/-! ## Parent/child conflict detection (`watcher/config.py`)

`find_parent_child_conflicts` compares the lower-cased normalised new
path against each registered folder's lower-cased path with
separator-strict `startswith` tests; `merge_to_parent` removes the listed
children by id. -/

theorem startsWithCL_iff (p q : List Char) :
    startsWithCL p q = true ↔ ∃ t, p = q ++ t := by
  induction q generalizing p with
  | nil => simp [startsWithCL]
  | cons d ds ih =>
    cases p with
    | nil =>
      simp only [startsWithCL, List.cons_append]
      constructor
      · intro h; cases h
      · rintro ⟨t, ht⟩; cases ht
    | cons c cs =>
      simp only [startsWithCL, Bool.and_eq_true, decide_eq_true_eq, List.cons_append,
        List.cons.injEq, ih]
      constructor
      · rintro ⟨rfl, t, rfl⟩
        exact ⟨t, rfl, rfl⟩
      · rintro ⟨t, rfl, rfl⟩
        exact ⟨rfl, t, rfl⟩

theorem splitSep_cons (c : Char) (cs : List Char) :
    splitSep (c :: cs)
      = if c = '\\' then [] :: splitSep cs
        else match splitSep cs with
          | [] => [[c]]
          | comp :: rest => (c :: comp) :: rest := rfl

theorem joinSep_cons2 (a x : List Char) (xs : List (List Char)) :
    joinSep (a :: x :: xs) = a ++ '\\' :: joinSep (x :: xs) := rfl

theorem splitSep_append_sep (a b : List Char) :
    splitSep (a ++ '\\' :: b) = splitSep a ++ splitSep b := by
  induction a with
  | nil => simp [splitSep]
  | cons c a ih =>
    by_cases hc : c = '\\'
    · subst hc
      rw [List.cons_append, splitSep_cons, if_pos rfl, ih, splitSep_cons, if_pos rfl,
        List.cons_append]
    · cases hsa : splitSep a with
      | nil => exact absurd hsa (splitSep_ne_nil a)
      | cons comp rest =>
        rw [List.cons_append, splitSep_cons, if_neg hc, ih, hsa, splitSep_cons, if_neg hc, hsa]
        rfl

theorem joinSep_append (as bs : List (List Char)) (ha : as ≠ []) (hb : bs ≠ []) :
    joinSep (as ++ bs) = joinSep as ++ '\\' :: joinSep bs := by
  induction as with
  | nil => exact absurd rfl ha
  | cons a as ih =>
    cases as with
    | nil =>
      cases bs with
      | nil => exact absurd rfl hb
      | cons b bs2 => rfl
    | cons a2 as2 =>
      have ih2 := ih (by simp)
      simp only [List.cons_append] at ih2 ⊢
      rw [joinSep_cons2 a a2 (as2 ++ bs), joinSep_cons2 a a2 as2, ih2]
      simp

/-- The separator-strict, component-wise notion of "a is a proper
ancestor path of p": a's backslash components are a strict prefix of
p's. -/
def properPathPrefix (a p : List Char) : Prop :=
  splitSep a <+: splitSep p ∧ splitSep a ≠ splitSep p

theorem startsWithCL_sep_iff_properPathPrefix (a p : List Char) :
    startsWithCL p (a ++ ['\\']) = true ↔ properPathPrefix a p := by
  rw [startsWithCL_iff]
  constructor
  · rintro ⟨t, rfl⟩
    have hassoc : (a ++ ['\\']) ++ t = a ++ '\\' :: t := by simp
    rw [hassoc]
    have h1 : splitSep (a ++ '\\' :: t) = splitSep a ++ splitSep t := splitSep_append_sep a t
    refine ⟨⟨splitSep t, h1.symm⟩, ?_⟩
    rw [h1]
    intro hcontra
    have hlen := congrArg List.length hcontra
    rw [List.length_append] at hlen
    have hpos : 0 < (splitSep t).length := by
      cases hst : splitSep t with
      | nil => exact absurd hst (splitSep_ne_nil t)
      | cons x xs => simp
    omega
  · rintro ⟨⟨suffix, hsuf⟩, hne⟩
    cases hsfx : suffix with
    | nil =>
      rw [hsfx] at hsuf
      simp at hsuf
      exact absurd hsuf hne
    | cons m ms =>
      refine ⟨joinSep (m :: ms), ?_⟩
      have hp : p = joinSep (splitSep p) := (joinSep_splitSep p).symm
      rw [hp, ← hsuf, hsfx,
        joinSep_append (splitSep a) (m :: ms) (splitSep_ne_nil a) (by simp),
        joinSep_splitSep]
      simp

/-- One registry entry's treatment inside `find_parent_child_conflicts`:
ancestor test first, descendant test second, otherwise unchanged. -/
def conflictStep (np : String) (acc : List MonitoredFolder × List MonitoredFolder)
    (folder : MonitoredFolder) : List MonitoredFolder × List MonitoredFolder :=
  if startsWithCL np.data ((lowerStr folder.path).data ++ ['\\']) then
    (acc.1 ++ [folder], acc.2)
  else if startsWithCL (lowerStr folder.path).data (np.data ++ ['\\']) then
    (acc.1, acc.2 ++ [folder])
  else acc

/-- `find_parent_child_conflicts`: one pass over the registry, lowering
both sides and testing separator-strict prefixes in both directions. -/
def findParentChildConflicts (reg : List MonitoredFolder) (newPath : String) :
    List MonitoredFolder × List MonitoredFolder :=
  reg.foldl (conflictStep (lowerStr (standardizePath newPath))) ([], [])

/-- `WatcherConfig.remove_folder`: delete the registry row by id. -/
def removeFolder (reg : List MonitoredFolder) (folderId : Nat) : List MonitoredFolder :=
  reg.filter (fun f => !(f.id == folderId))

/-- `WatcherConfig.merge_to_parent`: remove every listed child
registration (the parent path is only logged). -/
def mergeToParent (reg : List MonitoredFolder) (parentPath : String)
    (children : List MonitoredFolder) : List MonitoredFolder :=
  children.foldl (fun r c => removeFolder r c.id) reg

theorem conflictStep_mono (np : String) (acc : List MonitoredFolder × List MonitoredFolder)
    (g f : MonitoredFolder) :
    (f ∈ acc.1 → f ∈ (conflictStep np acc g).1)
    ∧ (f ∈ acc.2 → f ∈ (conflictStep np acc g).2) := by
  unfold conflictStep
  constructor
  · intro hf
    split
    · exact List.mem_append_left _ hf
    · split
      · exact hf
      · exact hf
  · intro hf
    split
    · exact hf
    · split
      · exact List.mem_append_left _ hf
      · exact hf

theorem foldl_conflictStep_mono (np : String) (reg : List MonitoredFolder)
    (f : MonitoredFolder) :
    ∀ acc : List MonitoredFolder × List MonitoredFolder,
    (f ∈ acc.1 → f ∈ (reg.foldl (conflictStep np) acc).1)
    ∧ (f ∈ acc.2 → f ∈ (reg.foldl (conflictStep np) acc).2) := by
  induction reg with
  | nil => intro acc; exact ⟨id, id⟩
  | cons g reg ih =>
    intro acc
    rw [List.foldl_cons]
    exact ⟨fun hf => (ih _).1 ((conflictStep_mono np acc g f).1 hf),
           fun hf => (ih _).2 ((conflictStep_mono np acc g f).2 hf)⟩

theorem mem_foldl_conflicts_of_mem (reg : List MonitoredFolder) (np : String)
    (f : MonitoredFolder) (hf : f ∈ reg) :
    ∀ acc : List MonitoredFolder × List MonitoredFolder,
    (startsWithCL np.data ((lowerStr f.path).data ++ ['\\']) = true →
      f ∈ (reg.foldl (conflictStep np) acc).1)
    ∧ (startsWithCL np.data ((lowerStr f.path).data ++ ['\\']) = false →
       startsWithCL (lowerStr f.path).data (np.data ++ ['\\']) = true →
      f ∈ (reg.foldl (conflictStep np) acc).2) := by
  induction reg with
  | nil => cases hf
  | cons g reg ih =>
    intro acc
    rcases List.mem_cons.1 hf with rfl | hf2
    · constructor
      · intro hcond
        rw [List.foldl_cons]
        refine (foldl_conflictStep_mono np reg f _).1 ?_
        unfold conflictStep
        rw [if_pos hcond]
        simp
      · intro hcond1 hcond2
        rw [List.foldl_cons]
        refine (foldl_conflictStep_mono np reg f _).2 ?_
        unfold conflictStep
        rw [if_neg (by rw [hcond1]; simp), if_pos hcond2]
        simp
    · constructor
      · intro hcond
        rw [List.foldl_cons]
        exact ((ih hf2) _).1 hcond
      · intro hcond1 hcond2
        rw [List.foldl_cons]
        exact ((ih hf2) _).2 hcond1 hcond2

theorem mem_removeFolder_ne (r : List MonitoredFolder) (cid : Nat) :
    ∀ y ∈ removeFolder r cid, y.id ≠ cid := by
  intro y hy
  have := List.of_mem_filter hy
  simpa using this

theorem foldl_removeFolder_preserves (cs : List MonitoredFolder) (cid : Nat) :
    ∀ r : List MonitoredFolder, (∀ y ∈ r, y.id ≠ cid) →
    ∀ y ∈ cs.foldl (fun r2 c3 => removeFolder r2 c3.id) r, y.id ≠ cid := by
  induction cs with
  | nil => intro r h y hy; exact h y hy
  | cons c4 cs4 ih =>
    intro r h y hy
    rw [List.foldl_cons] at hy
    exact ih _ (fun z hz => h z (List.mem_of_mem_filter hz)) y hy

theorem foldl_removeFolder_removes (cs : List MonitoredFolder) (c : MonitoredFolder)
    (hc : c ∈ cs) :
    ∀ r : List MonitoredFolder,
    ∀ x ∈ cs.foldl (fun r2 c2 => removeFolder r2 c2.id) r, x.id ≠ c.id := by
  induction cs with
  | nil => cases hc
  | cons c2 cs ih =>
    intro r x hx
    rw [List.foldl_cons] at hx
    rcases List.mem_cons.1 hc with rfl | hc2
    · exact foldl_removeFolder_preserves cs c.id _ (mem_removeFolder_ne r c.id) x hx
    · exact ih hc2 _ x hx

/-- **C8** — `WatcherConfig.find_parent_child_conflicts` /
`merge_to_parent` (`watcher/config.py`).  Every registered folder whose
lower-cased path is a proper component-wise ancestor of the lower-cased
normalised new path lands in the parent list; every proper component-wise
descendant lands in the children list; and after `merge_to_parent`, no
listed child's id remains in the registry. -/
theorem c8_conflict_detection_symmetry (reg : List MonitoredFolder) (newPath : String) :
    (∀ f ∈ reg,
      properPathPrefix (lowerStr f.path).data (lowerStr (standardizePath newPath)).data →
      f ∈ (findParentChildConflicts reg newPath).1)
    ∧ (∀ f ∈ reg,
      properPathPrefix (lowerStr (standardizePath newPath)).data (lowerStr f.path).data →
      f ∈ (findParentChildConflicts reg newPath).2)
    ∧ (∀ parentPath : String, ∀ c ∈ (findParentChildConflicts reg newPath).2,
        ∀ g ∈ mergeToParent reg parentPath (findParentChildConflicts reg newPath).2,
        g.id ≠ c.id) := by
  refine ⟨?_, ?_, ?_⟩
  · intro f hf hanc
    have hcond : startsWithCL (lowerStr (standardizePath newPath)).data
        ((lowerStr f.path).data ++ ['\\']) = true :=
      (startsWithCL_sep_iff_properPathPrefix _ _).2 hanc
    exact (mem_foldl_conflicts_of_mem reg _ f hf _).1 hcond
  · intro f hf hdesc
    have hcond2 : startsWithCL (lowerStr f.path).data
        ((lowerStr (standardizePath newPath)).data ++ ['\\']) = true :=
      (startsWithCL_sep_iff_properPathPrefix _ _).2 hdesc
    by_cases hcond1 : startsWithCL (lowerStr (standardizePath newPath)).data
        ((lowerStr f.path).data ++ ['\\']) = true
    · -- both directions at once is impossible: each side would be longer
      exfalso
      obtain ⟨t1, h1⟩ := (startsWithCL_iff _ _).1 hcond1
      obtain ⟨t2, h2⟩ := (startsWithCL_iff _ _).1 hcond2
      have hlen := congrArg List.length h1
      have hlen2 := congrArg List.length h2
      simp only [List.length_append, List.length_cons] at hlen hlen2
      omega
    · exact (mem_foldl_conflicts_of_mem reg _ f hf _).2
        (Bool.not_eq_true _ ▸ eq_false_of_ne_true hcond1) hcond2
  · intro parentPath c hc g hg hid
    exact foldl_removeFolder_removes (findParentChildConflicts reg newPath).2 c hc reg g hg hid

/-- Witness for C8: registry holding `C:\data\sub` queried with new path
`C:\data` reports the descendant; after merging it is gone. -/
theorem c8_conflict_detection_symmetry_witness :
    ({ id := 7, path := "C:\\data\\sub" } : MonitoredFolder)
      ∈ (findParentChildConflicts [{ id := 7, path := "C:\\data\\sub" }] "C:\\data").2
    ∧ ∀ g ∈ mergeToParent [{ id := 7, path := "C:\\data\\sub" }] "C:\\data"
        (findParentChildConflicts [{ id := 7, path := "C:\\data\\sub" }] "C:\\data").2,
        g.id ≠ 7 := by
  constructor
  · exact (c8_conflict_detection_symmetry [{ id := 7, path := "C:\\data\\sub" }] "C:\\data").2.1
      { id := 7, path := "C:\\data\\sub" } (by decide) (by constructor <;> decide)
  · intro g hg
    exact (c8_conflict_detection_symmetry [{ id := 7, path := "C:\\data\\sub" }] "C:\\data").2.2
      "C:\\data" { id := 7, path := "C:\\data\\sub" }
      ((c8_conflict_detection_symmetry [{ id := 7, path := "C:\\data\\sub" }] "C:\\data").2.1
        { id := 7, path := "C:\\data\\sub" } (by decide) (by constructor <;> decide))
      g hg

/-! ## Folder dedup insertion (`DatabaseManager._get_or_create_folder_id`)

Exact-match lookup (`WHERE path = ?`, BINARY collation, case-sensitive),
recursive parent-chain creation, then insertion.  The recursion walks the
backslash components; the embedding carries them last-component-first so
the parent call is structural. -/

/-- The `folders` table handle: rows plus the AUTOINCREMENT cursor. -/
structure FoldersTable where
  rows : List FolderRow := []
  nextId : Nat := 1
  deriving DecidableEq, Repr

/-- `SELECT id FROM folders WHERE path = ?` (case-sensitive), first row. -/
def findFolderExact (rows : List FolderRow) (p : String) : Option Nat :=
  (rows.find? (fun r => r.path = p)).map (fun r => r.id)

/-- The path denoted by a reversed component list. -/
def pathOfRev (rev : List (List Char)) : String :=
  ⟨joinSep rev.reverse⟩

/-- The recursive core of `_get_or_create_folder_id`, on the reversed
component list of the standardized path (last component first, so that
the parent call recurses on the tail).  A single component means the
source's `'\\' in folder_path` test fails and no parent is created; two
or more components mean the parent chain is resolved first.  The `[]`
branch is unreachable: `splitSep` never yields an empty component
list. -/
def goCreate (ssid : Option Nat) : FoldersTable → List (List Char) → Nat × FoldersTable
  | st, [] => (0, st)
  | st, [lastComp] =>
    match findFolderExact st.rows (pathOfRev [lastComp]) with
    | some i => (i, st)
    | none =>
      (st.nextId,
        { rows := st.rows ++ [⟨st.nextId, pathOfRev [lastComp], none, ssid⟩],
          nextId := st.nextId + 1 })
  | st, lastComp :: p :: ps =>
    match findFolderExact st.rows (pathOfRev (lastComp :: p :: ps)) with
    | some i => (i, st)
    | none =>
      let r := goCreate ssid st (p :: ps)
      (r.2.nextId,
        { rows := r.2.rows ++ [⟨r.2.nextId, pathOfRev (lastComp :: p :: ps), some r.1, ssid⟩],
          nextId := r.2.nextId + 1 })

/-- `DatabaseManager._get_or_create_folder_id`: `None` for the empty
path, else standardize and get-or-create the row (with its parent
chain). -/
def getOrCreateFolderId (st : FoldersTable) (folderPath : String) (ssid : Option Nat) :
    Option Nat × FoldersTable :=
  if folderPath = "" then (none, st)
  else
    let std := standardizePath folderPath
    let r := goCreate ssid st (splitSep std.data).reverse
    (some r.1, r.2)

theorem pathOfRev_longer (lastComp p : List Char) (ps : List (List Char)) :
    (joinSep (p :: ps).reverse).length + 1 + lastComp.length
      = (joinSep ((lastComp :: p :: ps)).reverse).length := by
  have hsplit : (lastComp :: p :: ps).reverse = (p :: ps).reverse ++ [lastComp] := by simp
  rw [hsplit, joinSep_append (p :: ps).reverse [lastComp] (by simp) (by simp)]
  simp [joinSep]
  omega

theorem goCreate_rows_append (ssid : Option Nat) (rev : List (List Char)) :
    ∀ st : FoldersTable, ∃ new : List FolderRow,
      (goCreate ssid st rev).2.rows = st.rows ++ new
      ∧ ∀ r ∈ new, r.path.data.length ≤ (joinSep rev.reverse).length := by
  induction rev with
  | nil => intro st; exact ⟨[], by simp [goCreate], by simp⟩
  | cons lastComp revParent ih =>
    intro st
    cases hrp : revParent with
    | nil =>
      simp only [goCreate]
      cases hfind : findFolderExact st.rows (pathOfRev [lastComp]) with
      | some i => exact ⟨[], by simp, by simp⟩
      | none =>
        refine ⟨[⟨st.nextId, pathOfRev [lastComp], none, ssid⟩], by simp, ?_⟩
        intro r hr
        simp only [List.mem_singleton] at hr
        subst hr
        simp [pathOfRev]
    | cons p ps =>
      simp only [goCreate]
      cases hfind : findFolderExact st.rows (pathOfRev (lastComp :: p :: ps)) with
      | some i => exact ⟨[], by simp, by simp⟩
      | none =>
        obtain ⟨new1, hnew1, hlen1⟩ := ih st
        rw [hrp] at hnew1 hlen1
        have hparent := pathOfRev_longer lastComp p ps
        refine ⟨new1 ++
          [⟨(goCreate ssid st (p :: ps)).2.nextId, pathOfRev (lastComp :: p :: ps),
            some (goCreate ssid st (p :: ps)).1, ssid⟩], ?_, ?_⟩
        · simp [hnew1]
        · intro r hr
          rcases List.mem_append.1 hr with hr | hr
          · have := hlen1 r hr
            omega
          · simp only [List.mem_singleton] at hr
            subst hr
            simp [pathOfRev]

theorem goCreate_found (ssid : Option Nat) (lastComp : List Char)
    (revParent : List (List Char)) (st : FoldersTable) :
    findFolderExact (goCreate ssid st (lastComp :: revParent)).2.rows
        (pathOfRev (lastComp :: revParent))
      = some (goCreate ssid st (lastComp :: revParent)).1 := by
  cases hrp : revParent with
  | nil =>
    simp only [goCreate]
    cases hfind : findFolderExact st.rows (pathOfRev [lastComp]) with
    | some i => exact hfind
    | none =>
      have hnone : st.rows.find? (fun r => r.path = pathOfRev [lastComp]) = none := by
        unfold findFolderExact at hfind
        cases h : st.rows.find? (fun r => r.path = pathOfRev [lastComp]) with
        | none => rfl
        | some r => rw [h] at hfind; cases hfind
      simp only [findFolderExact, List.find?_append, hnone, Option.none_or]
      rw [List.find?_cons]
      simp
  | cons p ps =>
    simp only [goCreate]
    cases hfind : findFolderExact st.rows (pathOfRev (lastComp :: p :: ps)) with
    | some i => exact hfind
    | none =>
      have hnone : st.rows.find? (fun r => r.path = pathOfRev (lastComp :: p :: ps)) = none := by
        unfold findFolderExact at hfind
        cases h : st.rows.find? (fun r => r.path = pathOfRev (lastComp :: p :: ps)) with
        | none => rfl
        | some r => rw [h] at hfind; cases hfind
      obtain ⟨new1, hnew1, hlen1⟩ := goCreate_rows_append ssid (p :: ps) st
      have hlt : (joinSep (p :: ps).reverse).length
          < (joinSep ((lastComp :: p :: ps)).reverse).length := by
        have := pathOfRev_longer lastComp p ps
        omega
      have hnew1none : new1.find? (fun r => r.path = pathOfRev (lastComp :: p :: ps)) = none := by
        rw [List.find?_eq_none]
        intro r hr
        have hle := hlen1 r hr
        simp only [decide_eq_true_eq]
        intro hcontra
        rw [hcontra] at hle
        simp only [pathOfRev] at hle
        omega
      simp only [findFolderExact, hnew1, List.append_assoc, List.find?_append,
        hnone, hnew1none, Option.none_or]
      rw [List.find?_cons]
      simp

theorem goCreate_of_found (ssid : Option Nat) (lastComp : List Char)
    (revParent : List (List Char)) (st : FoldersTable) (i : Nat)
    (h : findFolderExact st.rows (pathOfRev (lastComp :: revParent)) = some i) :
    goCreate ssid st (lastComp :: revParent) = (i, st) := by
  cases revParent with
  | nil => simp only [goCreate]; rw [h]
  | cons p ps => simp only [goCreate]; rw [h]

/-- The concrete two-call scenario refuting the case-insensitivity part
of C3: the same directory spelled `C:\Data` and then `c:/data/`. -/
def c3FirstCall : Option Nat × FoldersTable :=
  getOrCreateFolderId { rows := [], nextId := 1 } "C:\\Data" none

def c3SecondCall : Option Nat × FoldersTable :=
  getOrCreateFolderId c3FirstCall.2 "c:/data/" none

/-- **C3 counterexample** — `DatabaseManager._get_or_create_folder_id`
(`database/db_manager.py` lines 166–198).  `C:\Data` and `c:/data/`
denote the same directory (they standardize to case-insensitively equal
paths), yet the two calls return different ids and the second call adds
two more rows (`c:` and `c:\data`): the lookup `WHERE path = ?` uses the
column's BINARY collation, so letter case defeats the dedup. -/
theorem c3_case_creates_duplicate_row :
    lowerStr (standardizePath "C:\\Data") = lowerStr (standardizePath "c:/data/")
    ∧ c3FirstCall.1 = some 2
    ∧ c3SecondCall.1 = some 4
    ∧ c3SecondCall.1 ≠ c3FirstCall.1
    ∧ c3FirstCall.2.rows.length = 2
    ∧ c3SecondCall.2.rows.length = 4 := by
  refine ⟨by decide, by decide, by decide, by decide, by decide, by decide⟩

/-- **C3 (amended)** — for two nonempty path strings that standardize to
the **same string** (separator style and trailing separators removed —
but not letter case), a second `_get_or_create_folder_id` call returns
the same folder id as the first and leaves the table unchanged. -/
theorem c3_same_standardized_path_same_id (st : FoldersTable) (p₁ p₂ : String)
    (ssid₁ ssid₂ : Option Nat) (h1 : p₁ ≠ "") (h2 : p₂ ≠ "")
    (heq : standardizePath p₁ = standardizePath p₂) :
    (getOrCreateFolderId (getOrCreateFolderId st p₁ ssid₁).2 p₂ ssid₂).1
        = (getOrCreateFolderId st p₁ ssid₁).1
    ∧ (getOrCreateFolderId (getOrCreateFolderId st p₁ ssid₁).2 p₂ ssid₂).2
        = (getOrCreateFolderId st p₁ ssid₁).2 := by
  unfold getOrCreateFolderId
  rw [if_neg h1, if_neg h2, ← heq]
  cases hrev : (splitSep (standardizePath p₁).data).reverse with
  | nil =>
    exact absurd (by simpa using congrArg List.reverse hrev)
      (splitSep_ne_nil (standardizePath p₁).data)
  | cons lastComp revParent =>
    have hpath : pathOfRev (lastComp :: revParent) = standardizePath p₁ := by
      unfold pathOfRev
      rw [← hrev, List.reverse_reverse, joinSep_splitSep]
    have hfound := goCreate_found ssid₁ lastComp revParent st
    rw [hpath] at hfound
    have hsecond := goCreate_of_found ssid₂ lastComp revParent
      (goCreate ssid₁ st (lastComp :: revParent)).2
      (goCreate ssid₁ st (lastComp :: revParent)).1 (by rw [hpath]; exact hfound)
    dsimp only
    rw [hrev, hsecond]
    exact ⟨rfl, rfl⟩

/-- Witness for the amended C3: `C:/media/` and `C:\media` standardize
identically; the second call is a pure lookup. -/
theorem c3_same_standardized_path_same_id_witness :
    (getOrCreateFolderId
        (getOrCreateFolderId { rows := [], nextId := 1 } "C:/media/" none).2
        "C:\\media" (some 9)).1
      = (getOrCreateFolderId { rows := [], nextId := 1 } "C:/media/" none).1
    ∧ (getOrCreateFolderId
        (getOrCreateFolderId { rows := [], nextId := 1 } "C:/media/" none).2
        "C:\\media" (some 9)).2
      = (getOrCreateFolderId { rows := [], nextId := 1 } "C:/media/" none).2 :=
  c3_same_standardized_path_same_id { rows := [], nextId := 1 } "C:/media/" "C:\\media"
    none (some 9) (by decide) (by decide) (by decide)

/-! ## Direct-child enumeration (`DatabaseManager.get_direct_subdirs`)

The primary strategy runs off the `parent_id` index whenever the parent
**row** exists; the prefix-`LIKE` fallback (with exactly-one-remaining-
separator filtering) runs only when it does not.  The in-code comment
says the fallback serves tables where `parent_id` has not been filled —
but that is not the dispatch condition actually implemented. -/

structure SubdirEntry where
  name : String
  path : String
  hasChildren : Bool
  deriving DecidableEq, Repr

/-- Lexicographic code-point comparison of character lists (Python
string `<=`). -/
def charListLe : List Char → List Char → Bool
  | [], _ => true
  | _ :: _, [] => false
  | a :: as, b :: bs => if a = b then charListLe as bs else decide (a < b)

/-- Stable insertion for `sorted(..., key=lambda x: x.name.lower())`. -/
def insertByNameLower (e : SubdirEntry) : List SubdirEntry → List SubdirEntry
  | [] => [e]
  | x :: xs =>
    if charListLe (lowerCL e.name.data) (lowerCL x.name.data) then e :: x :: xs
    else x :: insertByNameLower e xs

/-- Python's stable `sorted` by lower-cased name. -/
def sortByNameLower (l : List SubdirEntry) : List SubdirEntry :=
  l.foldr insertByNameLower []

/-- `path.split('\\')[-1] if '\\' in path else path`. -/
def lastComponent (p : String) : String :=
  ⟨(splitSep p.data).getLast (splitSep_ne_nil _)⟩

/-- `SELECT id FROM folders WHERE path = ? COLLATE NOCASE` (first row). -/
def findFolderNocase (rows : List FolderRow) (p : String) : Option FolderRow :=
  rows.find? (fun r => nocaseEq r.path p)

/-- The parent_id-indexed strategy: children are the rows whose
`parent_id` equals the parent row's id; `has_children` asks the same
index one level down. -/
def subdirsViaParentId (rows : List FolderRow) (parentId : Nat) : List SubdirEntry :=
  sortByNameLower
    ((rows.filter (fun r => r.parentId = some parentId)).map
      (fun r => ⟨lastComponent r.path, r.path, rows.any (fun q => q.parentId = some r.id)⟩))

/-- The prefix-`LIKE` fallback: rows LIKE-prefixed by `parent + '\'`,
not NOCASE-equal to the parent, with no further separator in the
remaining part; names deduplicated case-insensitively (first wins) and
rebuilt as `parent + '\' + name`; `has_children` is a LIKE-prefix
existence test. -/
def subdirsViaLike (rows : List FolderRow) (parentPath : String) : List SubdirEntry :=
  let prefixChars := parentPath.data ++ ['\\']
  let selected := rows.filter (fun r =>
    startsWithCL (lowerCL r.path.data) (lowerCL prefixChars)
    && !(nocaseEq r.path parentPath)
    && !((r.path.data.drop prefixChars.length).any (fun c => c = '\\')))
  let names := selected.foldl (fun acc r =>
    let name : String := ⟨r.path.data.drop prefixChars.length⟩
    if name.data = [] then acc
    else if acc.any (fun x => lowerCL x.data == lowerCL name.data) then acc
    else acc ++ [name]) []
  sortByNameLower (names.map (fun nm =>
    ⟨nm, parentPath ++ "\\" ++ nm,
      rows.any (fun q => startsWithCL (lowerCL q.path.data)
        (lowerCL ((parentPath ++ "\\" ++ nm).data ++ ['\\'])))⟩))

/-- `DatabaseManager.get_direct_subdirs`: indexed strategy iff the
parent row exists, LIKE fallback otherwise. -/
def getDirectSubdirs (rows : List FolderRow) (parentPathRaw : String) : List SubdirEntry :=
  let parentPath := standardizePath parentPathRaw
  match findFolderNocase rows parentPath with
  | some parentRow => subdirsViaParentId rows parentRow.id
  | none => subdirsViaLike rows parentPath

/-- A legacy table: both rows present, `parent_id` never backfilled. -/
def legacyFolders : List FolderRow :=
  [⟨1, "c:\\data", none, none⟩, ⟨2, "c:\\data\\sub", none, none⟩]

/-- The same table after a parent_id backfill. -/
def backfilledFolders : List FolderRow :=
  [⟨1, "c:\\data", none, none⟩, ⟨2, "c:\\data\\sub", some 1, none⟩]

/-- **C9** — `DatabaseManager.get_direct_subdirs`
(`database/db_manager.py` lines 608–706).  On a legacy table whose
parent row exists but whose `parent_id` column was never backfilled, the
two strategies disagree: the parent_id-indexed path (which the code
dispatches to, because the parent row exists) returns nothing, while the
LIKE fallback — which the in-code comment reserves exactly for
unbackfilled tables — returns the actual child.  On the backfilled table
the two strategies agree. -/
theorem c9_strategies_disagree_on_legacy_table :
    getDirectSubdirs legacyFolders "c:\\data" = []
    ∧ subdirsViaLike legacyFolders "c:\\data" = [⟨"sub", "c:\\data\\sub", false⟩]
    ∧ getDirectSubdirs legacyFolders "c:\\data" ≠ subdirsViaLike legacyFolders "c:\\data"
    ∧ getDirectSubdirs backfilledFolders "c:\\data"
        = subdirsViaLike backfilledFolders "c:\\data" := by
  refine ⟨by decide, by decide, by decide, by decide⟩

/-! ## The reconciler's file diff (`Reconciler._detect_file_changes`)

The diff itself — two lower-cased-path-keyed maps, set differences and
an mtime comparison, counts from full sizes, capped samples — and the
schema check of the SQL that is supposed to produce the indexed map. -/

/-- The columns of the `files` table as created by
`DatabaseManager._init_tables` (no migration adds further ones). -/
def filesTableColumns : List String :=
  ["id", "filename", "extension", "folder_id", "size_bytes", "ctime", "mtime",
   "scan_time", "ai_category", "ai_tags", "is_dir"]

/-- The `files` columns referenced by the SELECT inside
`_detect_file_changes`: `f.filename, fo.path, f.modified_time, f.size`. -/
def reconcilerFilesQueryColumns : List String :=
  ["filename", "modified_time", "size"]

/-- Would sqlite accept the reconciler's indexed-files SELECT?  It
resolves each referenced column against the schema and raises
`OperationalError: no such column` on the first miss. -/
def reconcilerFilesQueryRuns : Bool :=
  reconcilerFilesQueryColumns.all (fun c => filesTableColumns.contains c)

/-- Executing the reconciler's indexed-files query against the schema:
it errors before producing any rows whenever a referenced column is
missing. -/
def runReconcilerIndexedQuery (files : List FileRow) (folders : List FolderRow)
    (folderPath : String) : Except String (List (String × Int)) :=
  if reconcilerFilesQueryRuns then
    Except.ok (files.filterMap fun f =>
      (folders.find? (fun fo => fo.id = f.folderId)).bind fun fo =>
        if detectIndexedUnderSelects folderPath fo then
          some (fo.path ++ "\\" ++ f.filename, f.mtime)
        else none)
  else Except.error "sqlite3.OperationalError: no such column: f.modified_time"

/-- The per-file metadata held in `current_files` / `indexed_files`. -/
structure FMeta where
  path : String
  name : String
  mtime : Int
  size : Int
  deriving DecidableEq, Repr

/-- Dict access `m[k]` on the path-keyed maps (the keys always come from
the same map, so the default is never reached). -/
def fmGet (m : List (String × FMeta)) (k : String) : FMeta :=
  (alookup m k).getD ⟨k, k, 0, 0⟩

/-- `added = current_set - indexed_set` (on the lower-cased keys). -/
def addedKeys (current indexed : List (String × FMeta)) : List String :=
  (current.map Prod.fst).filter (fun k => !((indexed.map Prod.fst).any (fun j => j = k)))

/-- `deleted = indexed_set - current_set`. -/
def deletedKeys (current indexed : List (String × FMeta)) : List String :=
  (indexed.map Prod.fst).filter (fun k => !((current.map Prod.fst).any (fun j => j = k)))

/-- `current_set & indexed_set`. -/
def interKeys (current indexed : List (String × FMeta)) : List String :=
  (current.map Prod.fst).filter (fun k => (indexed.map Prod.fst).any (fun j => j = k))

/-- The at-most-5 added samples (`list(added)[:5]`). -/
def addedSamples (current indexed : List (String × FMeta)) : List FileChange :=
  ((addedKeys current indexed).take 5).map fun k =>
    FileChange.mk (fmGet current k).path (fmGet current k).name "added" (fmGet current k).size

/-- The at-most-5 deleted samples (`list(deleted)[:5]`). -/
def deletedSamples (current indexed : List (String × FMeta)) : List FileChange :=
  ((deletedKeys current indexed).take 5).map fun k =>
    FileChange.mk (fmGet indexed k).path (fmGet indexed k).name "deleted" (fmGet indexed k).size

/-- One intersection key of the modified loop: count every mtime
difference, append a sample only while fewer than 10 samples exist. -/
def modifiedStep (current indexed : List (String × FMeta))
    (acc : List FileChange × Nat) (k : String) : List FileChange × Nat :=
  if (fmGet current k).mtime ≠ (fmGet indexed k).mtime then
    (if acc.1.length < 10 then
      acc.1 ++ [FileChange.mk (fmGet current k).path (fmGet current k).name "modified"
        (fmGet current k).size]
     else acc.1,
     acc.2 + 1)
  else acc

/-- The diff section of `_detect_file_changes` (`watcher/reconciler.py`
lines 202–242), taking the two already-built maps: set differences for
added/deleted, mtime comparison on the intersection, counts from the
full sets, samples capped at 5 + 5 and a total of 10.  Returns
`(file_changes, added_count, deleted_count, modified_count)`. -/
def diffFiles (current indexed : List (String × FMeta)) :
    List FileChange × Nat × Nat × Nat :=
  let res := (interKeys current indexed).foldl (modifiedStep current indexed)
    (addedSamples current indexed ++ deletedSamples current indexed, 0)
  (res.1, (addedKeys current indexed).length, (deletedKeys current indexed).length, res.2)

theorem foldl_modifiedStep_count (current indexed : List (String × FMeta)) :
    ∀ (keys : List String) (fc : List FileChange) (n : Nat),
      (keys.foldl (modifiedStep current indexed) (fc, n)).2
      = n + (keys.filter
          (fun k => (fmGet current k).mtime ≠ (fmGet indexed k).mtime)).length := by
  intro keys
  induction keys with
  | nil => intro fc n; simp
  | cons k keys ih =>
    intro fc n
    rw [List.foldl_cons, List.filter_cons]
    by_cases hk : (fmGet current k).mtime ≠ (fmGet indexed k).mtime
    · by_cases hlen : fc.length < 10
      · have hstep : modifiedStep current indexed (fc, n) k
            = (fc ++ [FileChange.mk (fmGet current k).path (fmGet current k).name "modified"
                (fmGet current k).size], n + 1) := by
          simp [modifiedStep, hk, hlen]
        rw [hstep, ih]
        simp [hk]
        omega
      · have hstep : modifiedStep current indexed (fc, n) k = (fc, n + 1) := by
          simp [modifiedStep, hk, hlen]
        rw [hstep, ih]
        simp [hk]
        omega
    · have hstep : modifiedStep current indexed (fc, n) k = (fc, n) := by
        simp [modifiedStep, hk]
      rw [hstep, ih]
      simp [hk]

theorem foldl_modifiedStep_cap (current indexed : List (String × FMeta)) :
    ∀ (keys : List String) (fc : List FileChange) (n : Nat), fc.length ≤ 10 →
      (keys.foldl (modifiedStep current indexed) (fc, n)).1.length ≤ 10 := by
  intro keys
  induction keys with
  | nil => intro fc n h; simpa using h
  | cons k keys ih =>
    intro fc n h
    rw [List.foldl_cons]
    by_cases hk : (fmGet current k).mtime ≠ (fmGet indexed k).mtime
    · by_cases hlen : fc.length < 10
      · have hstep : modifiedStep current indexed (fc, n) k
            = (fc ++ [FileChange.mk (fmGet current k).path (fmGet current k).name "modified"
                (fmGet current k).size], n + 1) := by
          simp [modifiedStep, hk, hlen]
        rw [hstep]
        refine ih _ _ ?_
        simp only [List.length_append, List.length_cons, List.length_nil]
        omega
      · have hstep : modifiedStep current indexed (fc, n) k = (fc, n + 1) := by
          simp [modifiedStep, hk, hlen]
        rw [hstep]
        exact ih _ _ h
    · have hstep : modifiedStep current indexed (fc, n) k = (fc, n) := by
        simp [modifiedStep, hk]
      rw [hstep]
      exact ih _ _ h

/-- The set algebra and count/cap facts of the diff the reconciler is
meant to perform on the two maps: `added ⊆ L − I`, `deleted ⊆ I − L`,
modification tested only on `L ∩ I`, the three key sets pairwise
disjoint, reported counts equal to the full set sizes, and at most 10
samples in total (at most 5 added, at most 5 deleted among them). -/
theorem diffFiles_set_algebra (current indexed : List (String × FMeta)) :
    (∀ k ∈ addedKeys current indexed,
      k ∈ current.map Prod.fst ∧ k ∉ indexed.map Prod.fst)
    ∧ (∀ k ∈ deletedKeys current indexed,
      k ∈ indexed.map Prod.fst ∧ k ∉ current.map Prod.fst)
    ∧ (∀ k ∈ interKeys current indexed,
      k ∈ current.map Prod.fst ∧ k ∈ indexed.map Prod.fst)
    ∧ (∀ k ∈ addedKeys current indexed,
      k ∉ deletedKeys current indexed ∧ k ∉ interKeys current indexed)
    ∧ (∀ k ∈ deletedKeys current indexed, k ∉ interKeys current indexed)
    ∧ (diffFiles current indexed).2.1 = (addedKeys current indexed).length
    ∧ (diffFiles current indexed).2.2.1 = (deletedKeys current indexed).length
    ∧ (diffFiles current indexed).2.2.2
        = ((interKeys current indexed).filter
            (fun k => (fmGet current k).mtime ≠ (fmGet indexed k).mtime)).length
    ∧ (addedSamples current indexed).length ≤ 5
    ∧ (deletedSamples current indexed).length ≤ 5
    ∧ (diffFiles current indexed).1.length ≤ 10 := by
  have hmem : ∀ (ks : List String) (k : String),
      (ks.any (fun j => j = k)) = true ↔ k ∈ ks := by
    intro ks k
    constructor
    · intro h
      obtain ⟨j, hj, hjk⟩ := List.any_eq_true.1 h
      simp only [decide_eq_true_eq] at hjk
      exact hjk ▸ hj
    · intro h
      exact List.any_eq_true.2 ⟨k, h, by simp⟩
  have hadd : ∀ k ∈ addedKeys current indexed,
      k ∈ current.map Prod.fst ∧ k ∉ indexed.map Prod.fst := by
    intro k hk
    have hf := List.of_mem_filter hk
    simp only [Bool.not_eq_true'] at hf
    refine ⟨List.mem_of_mem_filter hk, fun hc => ?_⟩
    rw [(hmem _ k).2 hc] at hf
    cases hf
  have hdel : ∀ k ∈ deletedKeys current indexed,
      k ∈ indexed.map Prod.fst ∧ k ∉ current.map Prod.fst := by
    intro k hk
    have hf := List.of_mem_filter hk
    simp only [Bool.not_eq_true'] at hf
    refine ⟨List.mem_of_mem_filter hk, fun hc => ?_⟩
    rw [(hmem _ k).2 hc] at hf
    cases hf
  have hint : ∀ k ∈ interKeys current indexed,
      k ∈ current.map Prod.fst ∧ k ∈ indexed.map Prod.fst := by
    intro k hk
    have hf := List.of_mem_filter hk
    exact ⟨List.mem_of_mem_filter hk, (hmem _ k).1 hf⟩
  refine ⟨hadd, hdel, hint, ?_, ?_, rfl, rfl, ?_, ?_, ?_, ?_⟩
  · intro k hk
    exact ⟨fun hc => (hdel k hc).2 (hadd k hk).1,
           fun hc => (hadd k hk).2 (hint k hc).2⟩
  · intro k hk
    exact fun hc => (hdel k hk).2 (hint k hc).1
  · have hbridge : (diffFiles current indexed).2.2.2
        = ((interKeys current indexed).foldl (modifiedStep current indexed)
            (addedSamples current indexed ++ deletedSamples current indexed, 0)).2 := rfl
    rw [hbridge, foldl_modifiedStep_count]
    simp
  · have h5 := List.length_take_le 5 (addedKeys current indexed)
    simp only [addedSamples, List.length_map]
    exact h5
  · have h5 := List.length_take_le 5 (deletedKeys current indexed)
    simp only [deletedSamples, List.length_map]
    exact h5
  · have hbridge : (diffFiles current indexed).1
        = ((interKeys current indexed).foldl (modifiedStep current indexed)
            (addedSamples current indexed ++ deletedSamples current indexed, 0)).1 := rfl
    rw [hbridge]
    refine foldl_modifiedStep_cap current indexed (interKeys current indexed) _ 0 ?_
    have h1 := List.length_take_le 5 (addedKeys current indexed)
    have h2 := List.length_take_le 5 (deletedKeys current indexed)
    simp only [List.length_append, addedSamples, deletedSamples, List.length_map]
    omega

/-- **C1** — `Reconciler._detect_file_changes`
(`watcher/reconciler.py` lines 157–242).  The indexed-files SELECT
references `f.modified_time` and `f.size`, columns that do not exist in
the `files` table created by `_init_tables` (which has `mtime` and
`size_bytes`), so on any folder whose mtime changed the query raises
`sqlite3.OperationalError` before any diff is computed, and the
exception propagates out of `check_all_folders`.  The diff the claim
describes is never produced. -/
theorem c1_indexed_query_references_missing_columns :
    reconcilerFilesQueryRuns = false
    ∧ ("modified_time" ∈ filesTableColumns) = False
    ∧ ("size" ∈ filesTableColumns) = False
    ∧ "mtime" ∈ filesTableColumns
    ∧ "size_bytes" ∈ filesTableColumns
    ∧ runReconcilerIndexedQuery [{ filename := "a.mkv", folderId := 1 }]
        [{ id := 1, path := "C:\\media" }] "C:\\media"
      = Except.error "sqlite3.OperationalError: no such column: f.modified_time" := by
  have hruns : reconcilerFilesQueryRuns = false := by decide
  refine ⟨hruns, by decide, by decide, by decide, by decide, ?_⟩
  simp [runReconcilerIndexedQuery, hruns]

end FileRecorder
